import Mathlib

/-!
Verification of the PE/COFF section header table decoder
(`src/pe/section_table.rs` of the goblin repository).

The buffer is modelled as a `List Nat` of bytes; multi-byte integers are
little-endian compositions of bytes; fallible operations return
`Except PError`.  A Rust `panic` (process abort, e.g. from a failed
assertion) is modelled as the explicit outcome `abort`, distinct from the
returned error values.
-/

/-- Bytes of an ASCII string literal (every literal used below is ASCII,
so this agrees with its UTF-8 encoding). -/
def ascii (s : String) : List Nat :=
  s.toList.map Char.toNat

/-- Little-endian value of a list of bytes: the first byte is the least
significant. -/
def leBytes : List Nat → Nat
  | [] => 0
  | b :: rest => b + 256 * leBytes rest

/-- A UTF-8 continuation byte, `0x80 ..= 0xBF`. -/
def contByte (b : Nat) : Bool :=
  128 ≤ b && b ≤ 191

/-- UTF-8 validity of a byte sequence, as checked by Rust's
`str::from_utf8` (the string reads of the byte-buffer abstraction
validate their bytes with it): rejects overlong encodings, surrogates
and code points above `U+10FFFF`. -/
def validUtf8 : List Nat → Bool
  | [] => true
  | b :: rest =>
    if b ≤ 0x7F then validUtf8 rest
    else if 0xC2 ≤ b && b ≤ 0xDF then
      match rest with
      | b1 :: r => contByte b1 && validUtf8 r
      | [] => false
    else if b = 0xE0 then
      match rest with
      | b1 :: b2 :: r => (0xA0 ≤ b1 && b1 ≤ 0xBF) && contByte b2 && validUtf8 r
      | _ => false
    else if (0xE1 ≤ b && b ≤ 0xEC) || b = 0xEE || b = 0xEF then
      match rest with
      | b1 :: b2 :: r => contByte b1 && contByte b2 && validUtf8 r
      | _ => false
    else if b = 0xED then
      match rest with
      | b1 :: b2 :: r => (0x80 ≤ b1 && b1 ≤ 0x9F) && contByte b2 && validUtf8 r
      | _ => false
    else if b = 0xF0 then
      match rest with
      | b1 :: b2 :: b3 :: r =>
        (0x90 ≤ b1 && b1 ≤ 0xBF) && contByte b2 && contByte b3 && validUtf8 r
      | _ => false
    else if 0xF1 ≤ b && b ≤ 0xF3 then
      match rest with
      | b1 :: b2 :: b3 :: r =>
        contByte b1 && contByte b2 && contByte b3 && validUtf8 r
      | _ => false
    else if b = 0xF4 then
      match rest with
      | b1 :: b2 :: b3 :: r =>
        (0x80 ≤ b1 && b1 ≤ 0x8F) && contByte b2 && contByte b3 && validUtf8 r
      | _ => false
    else false

/-- Error outcomes of the decoder.

* `outOfBounds` - a read past the end of the buffer (scroll's
  `BadOffset` / too-big errors, merged: the spec calls both
  "out-of-bounds error");
* `encoding` - bytes read as a string are not valid UTF-8;
* `malformed` - goblin's `Error::Malformed`, carrying the bytes of the
  message built by `format!` in the source;
* `abort` - not a returned error value: marks a Rust panic (process
  abort), carrying the bytes of the panic message. -/
inductive PError where
  | outOfBounds : PError
  | encoding : PError
  | malformed : List Nat → PError
  | abort : List Nat → PError
  deriving DecidableEq

/-- `bytes.pread::<&str>(off)` of the scroll reader abstraction: fails if
`off` is not strictly inside the buffer, otherwise takes bytes up to
(not including) the first NUL byte or the end of the buffer, and
validates them as UTF-8. -/
def pread_str (bytes : List Nat) (off : Nat) : Except PError (List Nat) :=
  if off < bytes.length then
    if validUtf8 ((bytes.drop off).takeWhile (fun b => b != 0)) then
      .ok ((bytes.drop off).takeWhile (fun b => b != 0))
    else .error .encoding
  else .error .outOfBounds

/-- `bytes.gread_with::<uN>(offset, scroll::LE)`: a bounds-checked
little-endian read of `w` bytes at `off`, returning the value and the
advanced offset. -/
def gread (bytes : List Nat) (off w : Nat) : Except PError (Nat × Nat) :=
  if off + w ≤ bytes.length then
    .ok (leBytes ((bytes.drop off).take w), off + w)
  else .error .outOfBounds

/-- The source's `for i in 0..8 { name[i] = bytes.gread_with(offset)? }`
loop: `n` successive one-byte reads, collecting the bytes. -/
def greadBytes (bytes : List Nat) : Nat → Nat → Except PError (List Nat × Nat)
  | off, 0 => .ok ([], off)
  | off, n + 1 =>
    match gread bytes off 1 with
    | .ok (b, off1) =>
      match greadBytes bytes off1 n with
      | .ok (rest, off2) => .ok (b :: rest, off2)
      | .error e => .error e
    | .error e => .error e

/-- Outcome of `base64_decode_string_entry`: `Ok(val)`, `Err(())`, or a
process abort from the `assert!` at its head. -/
inductive B64Out where
  | ok : Nat → B64Out
  | err : B64Out
  | abort : List Nat → B64Out
  deriving DecidableEq

/-- The per-character alphabet test of `base64_decode_string_entry`'s
loop body (byte values: `A` = 65, `Z` = 90, `a` = 97, `z` = 122,
`0` = 48, `9` = 57, `+` = 43, `/` = 47). -/
def b64digit (c : Nat) : Option Nat :=
  if 65 ≤ c ∧ c ≤ 90 then some (c - 65)
  else if 97 ≤ c ∧ c ≤ 122 then some (c - 97 + 26)
  else if 48 ≤ c ∧ c ≤ 57 then some (c - 48 + 52)
  else if c = 43 then some 62
  else if c = 47 then some 63
  else none

/-- The accumulation loop of `base64_decode_string_entry`:
`val = val * 64 + v` per character, `Err` on the first byte outside the
alphabet.  (With at most 6 characters the `usize` arithmetic cannot
overflow, so plain `Nat` arithmetic is exact.) -/
def b64loop : Nat → List Nat → Option Nat
  | val, [] => some val
  | val, c :: rest =>
    match b64digit c with
    | some v => b64loop (val * 64 + v) rest
    | none => none

/-- `base64_decode_string_entry` of the source: asserts the input is at
most 6 bytes long (a failed assertion is a process abort, `B64Out.abort`),
then folds the custom alphabet left to right. -/
def base64_decode_string_entry (s : List Nat) : B64Out :=
  if s.length > 6 then .abort (ascii ("String too long, possible overflow."))
  else
    match b64loop 0 s with
    | some v => .ok v
    | none => .err

example : base64_decode_string_entry (ascii ("AAAAAB")) = .ok 1 := by decide
example : base64_decode_string_entry (ascii ("BAAAAA")) = .ok 1073741824 := by decide
example : base64_decode_string_entry (ascii ("AAAAAAA"))
    = .abort (ascii ("String too long, possible overflow.")) := by decide
example : validUtf8 (ascii ("section_name")) = true := by decide
deriving instance DecidableEq for Except

example : pread_str [47, 52, 0, 0] 1 = .ok [52] := by decide

/-- Error kinds of Rust's `str::parse::<usize>` (`ParseIntError`). -/
inductive IntErrKind where
  | empty : IntErrKind
  | invalidDigit : IntErrKind
  | overflow : IntErrKind
  deriving DecidableEq

/-- The `Display` text of a `ParseIntError`, interpolated into the
`Malformed` message by the source. -/
def intErrMsg : IntErrKind → List Nat
  | .empty => ascii ("cannot parse integer from empty string")
  | .invalidDigit => ascii ("invalid digit found in string")
  | .overflow => ascii ("number too large to fit in target type")

/-- ASCII decimal digit value (`0` = 48 .. `9` = 57). -/
def digitVal (c : Nat) : Option Nat :=
  if 48 ≤ c ∧ c ≤ 57 then some (c - 48) else none

/-- Digit-accumulation loop of `from_str_radix` at radix 10 for a 64-bit
`usize`: checked multiply/add, overflow once the accumulator would reach
`2 ^ 64`. -/
def parseDigits : Nat → List Nat → Except IntErrKind Nat
  | acc, [] => .ok acc
  | acc, c :: rest =>
    match digitVal c with
    | some d =>
      if acc * 10 + d < 2 ^ 64 then parseDigits (acc * 10 + d) rest
      else .error .overflow
    | none => .error .invalidDigit

/-- Rust's `str::parse::<usize>` on the bytes of the string: empty input
is an `Empty` error; a single leading `+` (byte 43) is accepted as a
sign but must be followed by at least one character; everything after
the optional sign must be decimal digits. -/
def parse_usize (s : List Nat) : Except IntErrKind Nat :=
  match s with
  | [] => .error .empty
  | c :: rest =>
    if c = 43 then
      match rest with
      | [] => .error .invalidDigit
      | _ => parseDigits 0 rest
    else parseDigits 0 (c :: rest)

example : parse_usize (ascii ("4")) = .ok 4 := by decide
example : parse_usize (ascii ("+4")) = .ok 4 := by decide
example : parse_usize [] = .error .empty := by decide
example : parse_usize (ascii ("4a")) = .error .invalidDigit := by decide

/-- The string-table index computation of `SectionTable::parse` for an
indirect name (the `let idx = if name[1] == b'/' { .. } else { .. }`
expression, lines 69-77 of the source): the base64-like branch when
`name[1]` is `/`, otherwise the decimal branch, each mapping its
parse failure to `Error::Malformed` with the `format!` message of the
source. -/
def indirectIndex (name : List Nat) : Except PError Nat := do
  if name.getD 1 0 = 47 then
    let b64idx ← pread_str name 2
    match base64_decode_string_entry b64idx with
    | .ok v => pure v
    | .err => .error (.malformed (ascii ("Invalid indirect section name //")
        ++ b64idx ++ ascii (": base64 decoding failed")))
    | .abort m => .error (.abort m)
  else
    let nm ← pread_str name 1
    match parse_usize nm with
    | .ok v => pure v
    | .error k => .error (.malformed (ascii ("Invalid indirect section name /")
        ++ nm ++ ascii (": ") ++ intErrMsg k))

/-- The name-resolution block of `SectionTable::parse` (lines 68-79): if
the raw name starts with `/` (byte 47), decode the string-table index
and read the NUL-terminated string at `string_table_offset + idx`;
otherwise `real_name` stays `None`. -/
def resolveName (bytes name : List Nat) (string_table_offset : Nat) :
    Except PError (Option (List Nat)) := do
  if name.getD 0 0 = 47 then
    let idx ← indirectIndex name
    let s ← pread_str bytes (string_table_offset + idx)
    pure (some s)
  else
    pure none

/-- The `SectionTable` struct of the source.  `name` holds the raw
8-byte name field; strings are kept as their byte lists. -/
structure SectionTable where
  name : List Nat
  real_name : Option (List Nat)
  virtual_size : Nat
  virtual_address : Nat
  size_of_raw_data : Nat
  pointer_to_raw_data : Nat
  pointer_to_relocations : Nat
  pointer_to_linenumbers : Nat
  number_of_relocations : Nat
  number_of_linenumbers : Nat
  characteristics : Nat
  deriving DecidableEq

/-- `SIZEOF_SECTION_TABLE` of the source. -/
def SIZEOF_SECTION_TABLE : Nat := 8 * 5

/-- `SectionTable::parse`: reads the 8 name bytes one at a time, then
the nine fixed little-endian fields, each read advancing the cursor,
and finally resolves an indirect name.  Returns the table together with
the final cursor position (the source mutates `*offset` in place). -/
def parse (bytes : List Nat) (offset : Nat) (string_table_offset : Nat) :
    Except PError (SectionTable × Nat) := do
  let (name, off) ← greadBytes bytes offset 8
  let (virtual_size, off) ← gread bytes off 4
  let (virtual_address, off) ← gread bytes off 4
  let (size_of_raw_data, off) ← gread bytes off 4
  let (pointer_to_raw_data, off) ← gread bytes off 4
  let (pointer_to_relocations, off) ← gread bytes off 4
  let (pointer_to_linenumbers, off) ← gread bytes off 4
  let (number_of_relocations, off) ← gread bytes off 2
  let (number_of_linenumbers, off) ← gread bytes off 2
  let (characteristics, off) ← gread bytes off 4
  let real_name ← resolveName bytes name string_table_offset
  pure ({ name := name
          real_name := real_name
          virtual_size := virtual_size
          virtual_address := virtual_address
          size_of_raw_data := size_of_raw_data
          pointer_to_raw_data := pointer_to_raw_data
          pointer_to_relocations := pointer_to_relocations
          pointer_to_linenumbers := pointer_to_linenumbers
          number_of_relocations := number_of_relocations
          number_of_linenumbers := number_of_linenumbers
          characteristics := characteristics }, off)

/-- `SectionTable::name` (the name accessor; named `nameStr` here since
`SectionTable.name` is taken by the struct field): `real_name` when
present, otherwise `self.name.pread(0)` - the raw bytes trimmed at the
first NUL, validated as text. -/
def SectionTable.nameStr (t : SectionTable) : Except PError (List Nat) :=
  match t.real_name with
  | some s => .ok s
  | none => pread_str t.name 0

def IMAGE_SCN_TYPE_NO_PAD : Nat := 0x00000008
def IMAGE_SCN_CNT_CODE : Nat := 0x00000020
def IMAGE_SCN_CNT_INITIALIZED_DATA : Nat := 0x00000040
def IMAGE_SCN_CNT_UNINITIALIZED_DATA : Nat := 0x00000080
def IMAGE_SCN_LNK_OTHER : Nat := 0x00000100
def IMAGE_SCN_LNK_INFO : Nat := 0x00000200
def IMAGE_SCN_LNK_REMOVE : Nat := 0x00000800
def IMAGE_SCN_LNK_COMDAT : Nat := 0x00001000
def IMAGE_SCN_GPREL : Nat := 0x00008000
def IMAGE_SCN_MEM_PURGEABLE : Nat := 0x00020000
def IMAGE_SCN_MEM_16BIT : Nat := 0x00020000
def IMAGE_SCN_MEM_LOCKED : Nat := 0x00040000
def IMAGE_SCN_MEM_PRELOAD : Nat := 0x00080000
def IMAGE_SCN_ALIGN_1BYTES : Nat := 0x00100000
def IMAGE_SCN_ALIGN_2BYTES : Nat := 0x00200000
def IMAGE_SCN_ALIGN_4BYTES : Nat := 0x00300000
def IMAGE_SCN_ALIGN_8BYTES : Nat := 0x00400000
def IMAGE_SCN_ALIGN_16BYTES : Nat := 0x00500000
def IMAGE_SCN_ALIGN_32BYTES : Nat := 0x00600000
def IMAGE_SCN_ALIGN_64BYTES : Nat := 0x00700000
def IMAGE_SCN_ALIGN_128BYTES : Nat := 0x00800000
def IMAGE_SCN_ALIGN_256BYTES : Nat := 0x00900000
def IMAGE_SCN_ALIGN_512BYTES : Nat := 0x00A00000
def IMAGE_SCN_ALIGN_1024BYTES : Nat := 0x00B00000
def IMAGE_SCN_ALIGN_2048BYTES : Nat := 0x00C00000
def IMAGE_SCN_ALIGN_4096BYTES : Nat := 0x00D00000
def IMAGE_SCN_ALIGN_8192BYTES : Nat := 0x00E00000
def IMAGE_SCN_ALIGN_MASK : Nat := 0x00F00000
def IMAGE_SCN_LNK_NRELOC_OVFL : Nat := 0x01000000
def IMAGE_SCN_MEM_DISCARDABLE : Nat := 0x02000000
def IMAGE_SCN_MEM_NOT_CACHED : Nat := 0x04000000
def IMAGE_SCN_MEM_NOT_PAGED : Nat := 0x08000000
def IMAGE_SCN_MEM_SHARED : Nat := 0x10000000
def IMAGE_SCN_MEM_EXECUTE : Nat := 0x20000000
def IMAGE_SCN_MEM_READ : Nat := 0x40000000
def IMAGE_SCN_MEM_WRITE : Nat := 0x80000000

/-- The first 8 bytes at the cursor: the raw name field of the record
that starts there. -/
def rawName (bytes : List Nat) (off : Nat) : List Nat :=
  (bytes.drop off).take 8

example :
    parse ([46, 116, 101, 120, 116, 0, 0, 0] ++
      [1, 0, 0, 0] ++ [2, 0, 0, 0] ++ [3, 0, 0, 0] ++ [4, 0, 0, 0] ++
      [5, 0, 0, 0] ++ [6, 0, 0, 0] ++ [7, 0] ++ [8, 0] ++ [32, 0, 0, 96]) 0 0
    = .ok ({ name := [46, 116, 101, 120, 116, 0, 0, 0]
             real_name := none
             virtual_size := 1
             virtual_address := 2
             size_of_raw_data := 3
             pointer_to_raw_data := 4
             pointer_to_relocations := 5
             pointer_to_linenumbers := 6
             number_of_relocations := 7
             number_of_linenumbers := 8
             characteristics := 0x60000020 }, 40) := by decide

theorem ebind_ok {α β : Type} (a : α) (f : α → Except PError β) :
    (Except.ok a >>= f) = f a := rfl

theorem ebind_err {α β : Type} (e : PError) (f : α → Except PError β) :
    ((Except.error e : Except PError α) >>= f) = Except.error e := rfl

theorem gread_ok (bytes : List Nat) (off w : Nat) (h : off + w ≤ bytes.length) :
    gread bytes off w = .ok (leBytes ((bytes.drop off).take w), off + w) := by
  unfold gread
  exact if_pos h

theorem gread_err (bytes : List Nat) (off w : Nat) (h : bytes.length < off + w) :
    gread bytes off w = .error .outOfBounds := by
  unfold gread
  exact if_neg (by omega)

theorem gread_ok_inv {bytes : List Nat} {off w v off' : Nat}
    (h : gread bytes off w = .ok (v, off')) :
    off + w ≤ bytes.length ∧ v = leBytes ((bytes.drop off).take w) ∧ off' = off + w := by
  by_cases hle : off + w ≤ bytes.length
  · rw [gread_ok bytes off w hle] at h
    injection h with h1
    injection h1 with hv hoff
    exact ⟨hle, hv.symm, hoff.symm⟩
  · rw [gread_err bytes off w (by omega)] at h
    exact absurd h (by simp)

theorem leBytes_take_one {bytes : List Nat} {off : Nat} (h : off < bytes.length) :
    leBytes ((bytes.drop off).take 1) = bytes[off] := by
  rw [List.drop_eq_getElem_cons h]
  simp [leBytes]

theorem greadBytes_ok (bytes : List Nat) :
    ∀ (n off : Nat), off + n ≤ bytes.length →
      greadBytes bytes off n = .ok ((bytes.drop off).take n, off + n) := by
  intro n
  induction n with
  | zero => intro off _; simp [greadBytes]
  | succ n ih =>
    intro off h
    have hoff : off < bytes.length := by omega
    unfold greadBytes
    rw [gread_ok bytes off 1 (by omega)]
    dsimp only
    rw [ih (off + 1) (by omega)]
    dsimp only
    rw [leBytes_take_one hoff, List.drop_eq_getElem_cons hoff, List.take_succ_cons,
      show off + 1 + n = off + (n + 1) from by omega]

theorem greadBytes_err (bytes : List Nat) :
    ∀ (n off : Nat), 0 < n → bytes.length < off + n →
      greadBytes bytes off n = .error .outOfBounds := by
  intro n
  induction n with
  | zero => intro off h; omega
  | succ n ih =>
    intro off _ h
    unfold greadBytes
    by_cases h1 : off + 1 ≤ bytes.length
    · rw [gread_ok bytes off 1 h1]
      dsimp only
      have hn : 0 < n := by omega
      rw [ih (off + 1) hn (by omega)]
    · rw [gread_err bytes off 1 (by omega)]

theorem greadBytes_ok_inv {bytes : List Nat} {n off : Nat} {l : List Nat} {off' : Nat}
    (h : greadBytes bytes off n = .ok (l, off')) (hn : 0 < n) :
    off + n ≤ bytes.length ∧ l = (bytes.drop off).take n ∧ off' = off + n := by
  by_cases hle : off + n ≤ bytes.length
  · rw [greadBytes_ok bytes n off hle] at h
    injection h with h1
    injection h1 with hl hoff
    exact ⟨hle, hl.symm, hoff.symm⟩
  · rw [greadBytes_err bytes n off hn (by omega)] at h
    exact absurd h (by simp)

theorem parse_oob (bytes : List Nat) (off sto : Nat) (h : bytes.length < off + 40) :
    parse bytes off sto = .error .outOfBounds := by
  unfold parse
  by_cases h1 : off + 8 ≤ bytes.length
  swap
  · rw [greadBytes_err bytes 8 off (by omega) (by omega)]
    simp only [ebind_err]
  rw [greadBytes_ok bytes 8 off h1]
  simp only [ebind_ok]
  by_cases h2 : off + 8 + 4 ≤ bytes.length
  swap
  · rw [gread_err bytes (off + 8) 4 (by omega)]
    simp only [ebind_err]
  rw [gread_ok bytes (off + 8) 4 h2]
  simp only [ebind_ok]
  by_cases h3 : off + 8 + 4 + 4 ≤ bytes.length
  swap
  · rw [gread_err bytes (off + 8 + 4) 4 (by omega)]
    simp only [ebind_err]
  rw [gread_ok bytes (off + 8 + 4) 4 h3]
  simp only [ebind_ok]
  by_cases h4 : off + 8 + 4 + 4 + 4 ≤ bytes.length
  swap
  · rw [gread_err bytes (off + 8 + 4 + 4) 4 (by omega)]
    simp only [ebind_err]
  rw [gread_ok bytes (off + 8 + 4 + 4) 4 h4]
  simp only [ebind_ok]
  by_cases h5 : off + 8 + 4 + 4 + 4 + 4 ≤ bytes.length
  swap
  · rw [gread_err bytes (off + 8 + 4 + 4 + 4) 4 (by omega)]
    simp only [ebind_err]
  rw [gread_ok bytes (off + 8 + 4 + 4 + 4) 4 h5]
  simp only [ebind_ok]
  by_cases h6 : off + 8 + 4 + 4 + 4 + 4 + 4 ≤ bytes.length
  swap
  · rw [gread_err bytes (off + 8 + 4 + 4 + 4 + 4) 4 (by omega)]
    simp only [ebind_err]
  rw [gread_ok bytes (off + 8 + 4 + 4 + 4 + 4) 4 h6]
  simp only [ebind_ok]
  by_cases h7 : off + 8 + 4 + 4 + 4 + 4 + 4 + 4 ≤ bytes.length
  swap
  · rw [gread_err bytes (off + 8 + 4 + 4 + 4 + 4 + 4) 4 (by omega)]
    simp only [ebind_err]
  rw [gread_ok bytes (off + 8 + 4 + 4 + 4 + 4 + 4) 4 h7]
  simp only [ebind_ok]
  by_cases h8 : off + 8 + 4 + 4 + 4 + 4 + 4 + 4 + 2 ≤ bytes.length
  swap
  · rw [gread_err bytes (off + 8 + 4 + 4 + 4 + 4 + 4 + 4) 2 (by omega)]
    simp only [ebind_err]
  rw [gread_ok bytes (off + 8 + 4 + 4 + 4 + 4 + 4 + 4) 2 h8]
  simp only [ebind_ok]
  by_cases h9 : off + 8 + 4 + 4 + 4 + 4 + 4 + 4 + 2 + 2 ≤ bytes.length
  swap
  · rw [gread_err bytes (off + 8 + 4 + 4 + 4 + 4 + 4 + 4 + 2) 2 (by omega)]
    simp only [ebind_err]
  rw [gread_ok bytes (off + 8 + 4 + 4 + 4 + 4 + 4 + 4 + 2) 2 h9]
  simp only [ebind_ok]
  by_cases h10 : off + 8 + 4 + 4 + 4 + 4 + 4 + 4 + 2 + 2 + 4 ≤ bytes.length
  swap
  · rw [gread_err bytes (off + 8 + 4 + 4 + 4 + 4 + 4 + 4 + 2 + 2) 4 (by omega)]
    simp only [ebind_err]
  rw [gread_ok bytes (off + 8 + 4 + 4 + 4 + 4 + 4 + 4 + 2 + 2) 4 h10]
  simp only [ebind_ok]
  omega


theorem parse_eq (bytes : List Nat) (off sto : Nat) (hlen : off + 40 ≤ bytes.length) :
    parse bytes off sto =
      (resolveName bytes (rawName bytes off) sto) >>= fun rn =>
        .ok ({ name := rawName bytes off
               real_name := rn
               virtual_size := leBytes ((bytes.drop (off + 8)).take 4)
               virtual_address := leBytes ((bytes.drop (off + 12)).take 4)
               size_of_raw_data := leBytes ((bytes.drop (off + 16)).take 4)
               pointer_to_raw_data := leBytes ((bytes.drop (off + 20)).take 4)
               pointer_to_relocations := leBytes ((bytes.drop (off + 24)).take 4)
               pointer_to_linenumbers := leBytes ((bytes.drop (off + 28)).take 4)
               number_of_relocations := leBytes ((bytes.drop (off + 32)).take 2)
               number_of_linenumbers := leBytes ((bytes.drop (off + 34)).take 2)
               characteristics := leBytes ((bytes.drop (off + 36)).take 4) }, off + 40) := by
  unfold parse
  rw [greadBytes_ok bytes 8 off (by omega)]
  simp only [ebind_ok]
  rw [gread_ok bytes (off + 8) 4 (by omega)]
  simp only [ebind_ok]
  rw [gread_ok bytes (off + 8 + 4) 4 (by omega)]
  simp only [ebind_ok]
  rw [gread_ok bytes (off + 8 + 4 + 4) 4 (by omega)]
  simp only [ebind_ok]
  rw [gread_ok bytes (off + 8 + 4 + 4 + 4) 4 (by omega)]
  simp only [ebind_ok]
  rw [gread_ok bytes (off + 8 + 4 + 4 + 4 + 4) 4 (by omega)]
  simp only [ebind_ok]
  rw [gread_ok bytes (off + 8 + 4 + 4 + 4 + 4 + 4) 4 (by omega)]
  simp only [ebind_ok]
  rw [gread_ok bytes (off + 8 + 4 + 4 + 4 + 4 + 4 + 4) 2 (by omega)]
  simp only [ebind_ok]
  rw [gread_ok bytes (off + 8 + 4 + 4 + 4 + 4 + 4 + 4 + 2) 2 (by omega)]
  simp only [ebind_ok]
  rw [gread_ok bytes (off + 8 + 4 + 4 + 4 + 4 + 4 + 4 + 2 + 2) 4 (by omega)]
  simp only [ebind_ok]
  rw [show off + 8 + 4 = off + 12 from by omega]
  rw [show off + 12 + 4 = off + 16 from by omega]
  rw [show off + 16 + 4 = off + 20 from by omega]
  rw [show off + 20 + 4 = off + 24 from by omega]
  rw [show off + 24 + 4 = off + 28 from by omega]
  rw [show off + 28 + 4 = off + 32 from by omega]
  rw [show off + 32 + 2 = off + 34 from by omega]
  rw [show off + 34 + 2 = off + 36 from by omega]
  rw [show off + 36 + 4 = off + 40 from by omega]
  rfl


theorem parse_ok_inv {bytes : List Nat} {off sto : Nat} {t : SectionTable} {off' : Nat}
    (h : parse bytes off sto = .ok (t, off')) :
    off + 40 ≤ bytes.length ∧ off' = off + 40 ∧
    t.name = rawName bytes off ∧
    resolveName bytes (rawName bytes off) sto = .ok t.real_name ∧
    t.virtual_size = leBytes ((bytes.drop (off + 8)).take 4) ∧
    t.virtual_address = leBytes ((bytes.drop (off + 12)).take 4) ∧
    t.size_of_raw_data = leBytes ((bytes.drop (off + 16)).take 4) ∧
    t.pointer_to_raw_data = leBytes ((bytes.drop (off + 20)).take 4) ∧
    t.pointer_to_relocations = leBytes ((bytes.drop (off + 24)).take 4) ∧
    t.pointer_to_linenumbers = leBytes ((bytes.drop (off + 28)).take 4) ∧
    t.number_of_relocations = leBytes ((bytes.drop (off + 32)).take 2) ∧
    t.number_of_linenumbers = leBytes ((bytes.drop (off + 34)).take 2) ∧
    t.characteristics = leBytes ((bytes.drop (off + 36)).take 4) := by
  by_cases hlen : off + 40 ≤ bytes.length
  · rw [parse_eq bytes off sto hlen] at h
    cases hr : resolveName bytes (rawName bytes off) sto with
    | error e =>
      rw [hr] at h
      simp only [ebind_err] at h
      exact absurd h (by simp)
    | ok rn =>
      rw [hr] at h
      simp only [ebind_ok] at h
      injection h with h1
      injection h1 with ht hoff
      subst ht
      subst hoff
      exact ⟨hlen, rfl, rfl, rfl, rfl, rfl, rfl, rfl, rfl, rfl, rfl, rfl, rfl⟩
  · rw [parse_oob bytes off sto (by omega)] at h
    exact absurd h (by simp)

/-- Membership in the 64-symbol alphabet, stated from the spec's table:
`A`-`Z`, `a`-`z`, `0`-`9`, `+`, `/`. -/
def inB64Alphabet (c : Nat) : Prop :=
  (65 ≤ c ∧ c ≤ 90) ∨ (97 ≤ c ∧ c ≤ 122) ∨ (48 ≤ c ∧ c ≤ 57) ∨ c = 43 ∨ c = 47

instance (c : Nat) : Decidable (inB64Alphabet c) := by
  unfold inB64Alphabet
  infer_instance

/-- Spec-side digit table (`A`-`Z` to 0-25, `a`-`z` to 26-51, `0`-`9` to
52-61, `+` to 62, `/` to 63), written independently from the source's
branch structure, to compare the decoder against. -/
def b64CharValue (c : Nat) : Nat :=
  if 65 ≤ c ∧ c ≤ 90 then c - 65
  else if 97 ≤ c ∧ c ≤ 122 then c - 97 + 26
  else if 48 ≤ c ∧ c ≤ 57 then c - 48 + 52
  else if c = 43 then 62
  else 63

/-- Spec-side value of an index text: accumulated left to right as
`value = value * 64 + digit`, most-significant character first. -/
def b64SpecValue (s : List Nat) : Nat :=
  s.foldl (fun v c => v * 64 + b64CharValue c) 0

theorem b64digit_of_alphabet {c : Nat} (h : inB64Alphabet c) :
    b64digit c = some (b64CharValue c) := by
  unfold b64digit b64CharValue
  rcases h with h | h | h | h | h
  · rw [if_pos h, if_pos h]
  · have h1 : ¬(65 ≤ c ∧ c ≤ 90) := by omega
    rw [if_neg h1, if_pos h, if_neg h1, if_pos h]
  · have h1 : ¬(65 ≤ c ∧ c ≤ 90) := by omega
    have h2 : ¬(97 ≤ c ∧ c ≤ 122) := by omega
    rw [if_neg h1, if_neg h2, if_pos h, if_neg h1, if_neg h2, if_pos h]
  · subst h
    norm_num
  · subst h
    norm_num

theorem b64digit_none_of_not_alphabet {c : Nat} (h : ¬ inB64Alphabet c) :
    b64digit c = none := by
  unfold inB64Alphabet at h
  push_neg at h
  unfold b64digit
  obtain ⟨h1, h2, h3, h4, h5⟩ := h
  rw [if_neg (by omega), if_neg (by omega), if_neg (by omega), if_neg h4, if_neg h5]

theorem b64loop_all_alphabet {s : List Nat} (h : ∀ c ∈ s, inB64Alphabet c) :
    ∀ val, b64loop val s = some (s.foldl (fun v c => v * 64 + b64CharValue c) val) := by
  induction s with
  | nil => intro val; rfl
  | cons c rest ih =>
    intro val
    unfold b64loop
    rw [b64digit_of_alphabet (h c (List.mem_cons_self c rest))]
    exact ih (fun x hx => h x (List.mem_cons_of_mem c hx)) (val * 64 + b64CharValue c)

theorem b64loop_none_of_bad {s : List Nat} {c : Nat} (hc : c ∈ s)
    (hbad : b64digit c = none) : ∀ val, b64loop val s = none := by
  induction s with
  | nil => cases hc
  | cons a rest ih =>
    intro val
    unfold b64loop
    rcases List.mem_cons.mp hc with rfl | hmem
    · rw [hbad]
    · cases hd : b64digit a with
      | none => rfl
      | some v => exact ih hmem (val * 64 + v)

theorem base64_ok_of_alphabet {s : List Nat} (h6 : s.length ≤ 6)
    (h : ∀ c ∈ s, inB64Alphabet c) :
    base64_decode_string_entry s = .ok (b64SpecValue s) := by
  unfold base64_decode_string_entry
  rw [if_neg (by omega), b64loop_all_alphabet h 0]
  rfl

theorem base64_err_of_bad {s : List Nat} {c : Nat} (h6 : s.length ≤ 6)
    (hc : c ∈ s) (hbad : b64digit c = none) :
    base64_decode_string_entry s = .err := by
  unfold base64_decode_string_entry
  rw [if_neg (by omega), b64loop_none_of_bad hc hbad 0]

theorem pread_str_ok (bytes : List Nat) (off : Nat) (hoff : off < bytes.length)
    (hval : validUtf8 ((bytes.drop off).takeWhile (fun b => b != 0)) = true) :
    pread_str bytes off = .ok ((bytes.drop off).takeWhile (fun b => b != 0)) := by
  unfold pread_str
  rw [if_pos hoff, if_pos hval]

theorem pread_str_oob (bytes : List Nat) (off : Nat) (hoff : bytes.length ≤ off) :
    pread_str bytes off = .error .outOfBounds := by
  unfold pread_str
  rw [if_neg (by omega)]

theorem pread_str_ok_inv {bytes : List Nat} {off : Nat} {s : List Nat}
    (h : pread_str bytes off = .ok s) :
    off < bytes.length ∧ s = (bytes.drop off).takeWhile (fun b => b != 0) ∧
      validUtf8 s = true := by
  unfold pread_str at h
  split at h
  · split at h
    · injection h with h1
      subst h1
      exact ⟨by assumption, rfl, by assumption⟩
    · exact absurd h (by simp)
  · exact absurd h (by simp)

theorem pread_str_err_kinds {bytes : List Nat} {off : Nat} {e : PError}
    (h : pread_str bytes off = .error e) :
    e = .outOfBounds ∨ e = .encoding := by
  unfold pread_str at h
  split at h
  · split at h
    · exact absurd h (by simp)
    · injection h with h1
      exact Or.inr h1.symm
  · injection h with h1
    exact Or.inl h1.symm

theorem base64_not_abort {s : List Nat} (h6 : s.length ≤ 6) :
    base64_decode_string_entry s = .err ∨ ∃ v, base64_decode_string_entry s = .ok v := by
  unfold base64_decode_string_entry
  rw [if_neg (by omega)]
  cases b64loop 0 s with
  | none => exact Or.inl rfl
  | some v => exact Or.inr ⟨v, rfl⟩

theorem indirectIndex_b64_ok {name : List Nat} {t : List Nat} {v : Nat}
    (h2 : name.getD 1 0 = 47) (hp : pread_str name 2 = .ok t)
    (hb : base64_decode_string_entry t = .ok v) :
    indirectIndex name = .ok v := by
  unfold indirectIndex
  rw [if_pos h2, hp]
  simp only [ebind_ok]
  rw [hb]
  rfl

theorem indirectIndex_b64_malformed {name : List Nat} {t : List Nat}
    (h2 : name.getD 1 0 = 47) (hp : pread_str name 2 = .ok t)
    (hb : base64_decode_string_entry t = .err) :
    indirectIndex name = .error (.malformed (ascii ("Invalid indirect section name //")
      ++ t ++ ascii (": base64 decoding failed"))) := by
  unfold indirectIndex
  rw [if_pos h2, hp]
  simp only [ebind_ok]
  rw [hb]

theorem indirectIndex_b64_abort {name : List Nat} {t : List Nat} {m : List Nat}
    (h2 : name.getD 1 0 = 47) (hp : pread_str name 2 = .ok t)
    (hb : base64_decode_string_entry t = .abort m) :
    indirectIndex name = .error (.abort m) := by
  unfold indirectIndex
  rw [if_pos h2, hp]
  simp only [ebind_ok]
  rw [hb]

theorem indirectIndex_b64_err {name : List Nat} {e : PError}
    (h2 : name.getD 1 0 = 47) (hp : pread_str name 2 = .error e) :
    indirectIndex name = .error e := by
  unfold indirectIndex
  rw [if_pos h2, hp]
  rfl

theorem indirectIndex_dec_ok {name : List Nat} {t : List Nat} {v : Nat}
    (h2 : name.getD 1 0 ≠ 47) (hp : pread_str name 1 = .ok t)
    (hu : parse_usize t = .ok v) :
    indirectIndex name = .ok v := by
  unfold indirectIndex
  rw [if_neg h2, hp]
  simp only [ebind_ok]
  rw [hu]
  rfl

theorem indirectIndex_dec_malformed {name : List Nat} {t : List Nat} {k : IntErrKind}
    (h2 : name.getD 1 0 ≠ 47) (hp : pread_str name 1 = .ok t)
    (hu : parse_usize t = .error k) :
    indirectIndex name = .error (.malformed (ascii ("Invalid indirect section name /")
      ++ t ++ ascii (": ") ++ intErrMsg k)) := by
  unfold indirectIndex
  rw [if_neg h2, hp]
  simp only [ebind_ok]
  rw [hu]

theorem indirectIndex_dec_err {name : List Nat} {e : PError}
    (h2 : name.getD 1 0 ≠ 47) (hp : pread_str name 1 = .error e) :
    indirectIndex name = .error e := by
  unfold indirectIndex
  rw [if_neg h2, hp]
  rfl

theorem resolveName_not_slash {bytes name : List Nat} {sto : Nat}
    (h : name.getD 0 0 ≠ 47) :
    resolveName bytes name sto = .ok none := by
  unfold resolveName
  rw [if_neg h]
  rfl

theorem resolveName_slash_ok {bytes name : List Nat} {sto i : Nat} {s : List Nat}
    (h : name.getD 0 0 = 47) (hi : indirectIndex name = .ok i)
    (hs : pread_str bytes (sto + i) = .ok s) :
    resolveName bytes name sto = .ok (some s) := by
  unfold resolveName
  rw [if_pos h, hi]
  simp only [ebind_ok]
  rw [hs]
  rfl

theorem resolveName_idx_err {bytes name : List Nat} {sto : Nat} {e : PError}
    (h : name.getD 0 0 = 47) (hi : indirectIndex name = .error e) :
    resolveName bytes name sto = .error e := by
  unfold resolveName
  rw [if_pos h, hi]
  rfl

theorem resolveName_str_err {bytes name : List Nat} {sto i : Nat} {e : PError}
    (h : name.getD 0 0 = 47) (hi : indirectIndex name = .ok i)
    (hs : pread_str bytes (sto + i) = .error e) :
    resolveName bytes name sto = .error e := by
  unfold resolveName
  rw [if_pos h, hi]
  simp only [ebind_ok]
  rw [hs]
  rfl

theorem resolveName_ok_inv {bytes name : List Nat} {sto : Nat} {rn : Option (List Nat)}
    (h : resolveName bytes name sto = .ok rn) :
    (name.getD 0 0 = 47 →
      ∃ i s, indirectIndex name = .ok i ∧ pread_str bytes (sto + i) = .ok s ∧ rn = some s) ∧
    (name.getD 0 0 ≠ 47 → rn = none) := by
  by_cases h0 : name.getD 0 0 = 47
  · refine ⟨fun _ => ?_, fun h' => absurd h0 h'⟩
    cases hi : indirectIndex name with
    | error e =>
      rw [resolveName_idx_err h0 hi] at h
      exact absurd h (by simp)
    | ok i =>
      cases hs : pread_str bytes (sto + i) with
      | error e =>
        rw [resolveName_str_err h0 hi hs] at h
        exact absurd h (by simp)
      | ok s =>
        rw [resolveName_slash_ok h0 hi hs] at h
        injection h with h1
        exact ⟨i, s, rfl, hs, h1.symm⟩
  · refine ⟨fun h' => absurd h' h0, fun _ => ?_⟩
    rw [resolveName_not_slash h0] at h
    injection h with h1
    exact h1.symm

theorem rawName_length {bytes : List Nat} {off : Nat} (h : off + 8 ≤ bytes.length) :
    (rawName bytes off).length = 8 := by
  unfold rawName
  rw [List.length_take, List.length_drop]
  omega

theorem pread_str_len_bound {name : List Nat} {k : Nat} {t : List Nat}
    (h : pread_str name k = .ok t) : t.length ≤ name.length - k := by
  obtain ⟨hk, ht, _⟩ := pread_str_ok_inv h
  subst ht
  have h1 : ((name.drop k).takeWhile (fun b => b != 0)).length ≤ (name.drop k).length :=
    (List.takeWhile_prefix (fun b => b != 0)).length_le
  rw [List.length_drop] at h1
  exact h1

theorem indirectIndex_err_kinds {name : List Nat} {e : PError}
    (hlen : name.length = 8) (h : indirectIndex name = .error e) :
    e = .outOfBounds ∨ e = .encoding ∨ ∃ m, e = .malformed m := by
  by_cases h2 : name.getD 1 0 = 47
  · cases hp : pread_str name 2 with
    | error e' =>
      rw [indirectIndex_b64_err h2 hp] at h
      injection h with h1
      rcases pread_str_err_kinds hp with he | he
      · exact Or.inl (h1.symm.trans he)
      · exact Or.inr (Or.inl (h1.symm.trans he))
    | ok t =>
      have h6 : t.length ≤ 6 := by
        have := pread_str_len_bound hp
        omega
      rcases base64_not_abort h6 with hb | ⟨v, hb⟩
      · rw [indirectIndex_b64_malformed h2 hp hb] at h
        injection h with h1
        exact Or.inr (Or.inr ⟨_, h1.symm⟩)
      · rw [indirectIndex_b64_ok h2 hp hb] at h
        exact absurd h (by simp)
  · cases hp : pread_str name 1 with
    | error e' =>
      rw [indirectIndex_dec_err h2 hp] at h
      injection h with h1
      rcases pread_str_err_kinds hp with he | he
      · exact Or.inl (h1.symm.trans he)
      · exact Or.inr (Or.inl (h1.symm.trans he))
    | ok t =>
      cases hu : parse_usize t with
      | error k =>
        rw [indirectIndex_dec_malformed h2 hp hu] at h
        injection h with h1
        exact Or.inr (Or.inr ⟨_, h1.symm⟩)
      | ok v =>
        rw [indirectIndex_dec_ok h2 hp hu] at h
        exact absurd h (by simp)

theorem resolveName_err_kinds {bytes name : List Nat} {sto : Nat} {e : PError}
    (hlen : name.length = 8) (h : resolveName bytes name sto = .error e) :
    e = .outOfBounds ∨ e = .encoding ∨ ∃ m, e = .malformed m := by
  by_cases h0 : name.getD 0 0 = 47
  · cases hi : indirectIndex name with
    | error e' =>
      rw [resolveName_idx_err h0 hi] at h
      injection h with h1
      subst h1
      exact indirectIndex_err_kinds hlen hi
    | ok i =>
      cases hs : pread_str bytes (sto + i) with
      | error e' =>
        rw [resolveName_str_err h0 hi hs] at h
        injection h with h1
        subst h1
        rcases pread_str_err_kinds hs with he | he
        · exact Or.inl he
        · exact Or.inr (Or.inl he)
      | ok s =>
        rw [resolveName_slash_ok h0 hi hs] at h
        exact absurd h (by simp)
  · rw [resolveName_not_slash h0] at h
    exact absurd h (by simp)

theorem parse_err_kinds {bytes : List Nat} {off sto : Nat} {e : PError}
    (h : parse bytes off sto = .error e) :
    e = .outOfBounds ∨ e = .encoding ∨ ∃ m, e = .malformed m := by
  by_cases hlen : off + 40 ≤ bytes.length
  · rw [parse_eq bytes off sto hlen] at h
    cases hr : resolveName bytes (rawName bytes off) sto with
    | error e' =>
      rw [hr] at h
      simp only [ebind_err] at h
      injection h with h1
      subst h1
      exact resolveName_err_kinds (rawName_length (by omega)) hr
    | ok rn =>
      rw [hr] at h
      simp only [ebind_ok] at h
      exact absurd h (by simp)
  · rw [parse_oob bytes off sto (by omega)] at h
    injection h with h1
    exact Or.inl h1.symm

/-- A concrete 40-byte record used by witnesses: name `.text`, field
values 1..8, characteristics `0x60000020`. -/
def fixtureRecord : List Nat :=
  [46, 116, 101, 120, 116, 0, 0, 0] ++
  [1, 0, 0, 0] ++ [2, 0, 0, 0] ++ [3, 0, 0, 0] ++ [4, 0, 0, 0] ++
  [5, 0, 0, 0] ++ [6, 0, 0, 0] ++ [7, 0] ++ [8, 0] ++ [32, 0, 0, 96]

/-- The decoded form of `fixtureRecord`. -/
def fixtureTable : SectionTable :=
  { name := [46, 116, 101, 120, 116, 0, 0, 0]
    real_name := none
    virtual_size := 1
    virtual_address := 2
    size_of_raw_data := 3
    pointer_to_raw_data := 4
    pointer_to_relocations := 5
    pointer_to_linenumbers := 6
    number_of_relocations := 7
    number_of_linenumbers := 8
    characteristics := 0x60000020 }

/-- Claim C1: whenever decoding succeeds, the 40-byte record has been
read field by field in the exact order and widths name(8),
virtual_size(4), virtual_address(4), size_of_raw_data(4),
pointer_to_raw_data(4), pointer_to_relocations(4),
pointer_to_linenumbers(4), number_of_relocations(2),
number_of_linenumbers(2), characteristics(4), every multi-byte field
little-endian; each field reproduces exactly the bytes at its position,
and the returned cursor is the starting cursor plus 40. -/
theorem parse_reads_fields_in_order (bytes : List Nat) (off sto : Nat)
    (t : SectionTable) (off' : Nat) (h : parse bytes off sto = .ok (t, off')) :
    off' = off + 40 ∧
    t.name = (bytes.drop off).take 8 ∧
    t.virtual_size = leBytes ((bytes.drop (off + 8)).take 4) ∧
    t.virtual_address = leBytes ((bytes.drop (off + 12)).take 4) ∧
    t.size_of_raw_data = leBytes ((bytes.drop (off + 16)).take 4) ∧
    t.pointer_to_raw_data = leBytes ((bytes.drop (off + 20)).take 4) ∧
    t.pointer_to_relocations = leBytes ((bytes.drop (off + 24)).take 4) ∧
    t.pointer_to_linenumbers = leBytes ((bytes.drop (off + 28)).take 4) ∧
    t.number_of_relocations = leBytes ((bytes.drop (off + 32)).take 2) ∧
    t.number_of_linenumbers = leBytes ((bytes.drop (off + 34)).take 2) ∧
    t.characteristics = leBytes ((bytes.drop (off + 36)).take 4) := by
  obtain ⟨_, hoff, hname, _, f1, f2, f3, f4, f5, f6, f7, f8, f9⟩ := parse_ok_inv h
  exact ⟨hoff, hname, f1, f2, f3, f4, f5, f6, f7, f8, f9⟩

theorem parse_reads_fields_in_order_witness :
    parse fixtureRecord 0 0 = .ok (fixtureTable, 40) ∧
    (40 = 0 + 40 ∧
     fixtureTable.name = (fixtureRecord.drop 0).take 8 ∧
     fixtureTable.virtual_size = leBytes ((fixtureRecord.drop (0 + 8)).take 4) ∧
     fixtureTable.virtual_address = leBytes ((fixtureRecord.drop (0 + 12)).take 4) ∧
     fixtureTable.size_of_raw_data = leBytes ((fixtureRecord.drop (0 + 16)).take 4) ∧
     fixtureTable.pointer_to_raw_data = leBytes ((fixtureRecord.drop (0 + 20)).take 4) ∧
     fixtureTable.pointer_to_relocations = leBytes ((fixtureRecord.drop (0 + 24)).take 4) ∧
     fixtureTable.pointer_to_linenumbers = leBytes ((fixtureRecord.drop (0 + 28)).take 4) ∧
     fixtureTable.number_of_relocations = leBytes ((fixtureRecord.drop (0 + 32)).take 2) ∧
     fixtureTable.number_of_linenumbers = leBytes ((fixtureRecord.drop (0 + 34)).take 2) ∧
     fixtureTable.characteristics = leBytes ((fixtureRecord.drop (0 + 36)).take 4)) :=
  ⟨by decide, parse_reads_fields_in_order fixtureRecord 0 0 fixtureTable 40 (by decide)⟩

/-- Claim C6: for every successfully decoded record, `real_name` is
`Some` exactly when the first byte of the raw 8-byte name is `/`
(byte 47) - string-table resolution necessarily succeeded, the whole
decode having succeeded; when the first byte is not `/`, `real_name`
is absent. -/
theorem real_name_iff_slash (bytes : List Nat) (off sto : Nat)
    (t : SectionTable) (off' : Nat) (h : parse bytes off sto = .ok (t, off')) :
    (t.real_name.isSome = true ↔ t.name.getD 0 0 = 47) ∧
    (t.name.getD 0 0 ≠ 47 → t.real_name = none) := by
  obtain ⟨hlen, _, hname, hres, _⟩ := parse_ok_inv h
  obtain ⟨hslash, hnot⟩ := resolveName_ok_inv hres
  rw [hname]
  constructor
  · constructor
    · intro hsome
      by_contra h0
      rw [hnot h0] at hsome
      exact absurd hsome (by simp)
    · intro h0
      obtain ⟨i, s, _, _, hrn⟩ := hslash h0
      rw [hrn]
      rfl
  · exact hnot

theorem real_name_iff_slash_witness :
    parse fixtureRecord 0 0 = .ok (fixtureTable, 40) ∧
    ((fixtureTable.real_name.isSome = true ↔ fixtureTable.name.getD 0 0 = 47) ∧
     (fixtureTable.name.getD 0 0 ≠ 47 → fixtureTable.real_name = none)) :=
  ⟨by decide, real_name_iff_slash fixtureRecord 0 0 fixtureTable 40 (by decide)⟩

/-- Claim C7: the name accessor returns `real_name` when present;
otherwise it returns the raw 8-byte name trimmed at the first NUL (all
8 bytes when no NUL occurs - `takeWhile` keeps everything in that
case), and it fails with an Encoding error exactly when those trimmed
raw bytes are not valid text. -/
theorem name_accessor_spec (t : SectionTable) (h8 : t.name.length = 8) :
    (∀ s, t.real_name = some s → t.nameStr = .ok s) ∧
    (t.real_name = none →
      ((validUtf8 (t.name.takeWhile (fun b => b != 0)) = true ∧
        t.nameStr = .ok (t.name.takeWhile (fun b => b != 0))) ∨
       (validUtf8 (t.name.takeWhile (fun b => b != 0)) = false ∧
        t.nameStr = .error .encoding))) := by
  constructor
  · intro s hs
    unfold SectionTable.nameStr
    rw [hs]
  · intro hn
    have hstr : t.nameStr = pread_str t.name 0 := by
      unfold SectionTable.nameStr
      rw [hn]
    cases hv : validUtf8 (t.name.takeWhile (fun b => b != 0)) with
    | true =>
      refine Or.inl ⟨rfl, ?_⟩
      rw [hstr]
      unfold pread_str
      rw [List.drop_zero, if_pos (by omega), if_pos hv]
    | false =>
      refine Or.inr ⟨rfl, ?_⟩
      rw [hstr]
      unfold pread_str
      rw [List.drop_zero, if_pos (by omega), if_neg (by simp [hv])]

theorem name_accessor_spec_witness :
    fixtureTable.name.length = 8 ∧
    ((∀ s, fixtureTable.real_name = some s → fixtureTable.nameStr = .ok s) ∧
     (fixtureTable.real_name = none →
       ((validUtf8 (fixtureTable.name.takeWhile (fun b => b != 0)) = true ∧
         fixtureTable.nameStr = .ok (fixtureTable.name.takeWhile (fun b => b != 0))) ∨
        (validUtf8 (fixtureTable.name.takeWhile (fun b => b != 0)) = false ∧
         fixtureTable.nameStr = .error .encoding)))) :=
  ⟨by decide, name_accessor_spec fixtureTable (by decide)⟩

/-- The alignment sub-field constants paired with the byte alignment
each one encodes (1 through 8192 bytes). -/
def alignTable : List (Nat × Nat) :=
  [(IMAGE_SCN_ALIGN_1BYTES, 1), (IMAGE_SCN_ALIGN_2BYTES, 2),
   (IMAGE_SCN_ALIGN_4BYTES, 4), (IMAGE_SCN_ALIGN_8BYTES, 8),
   (IMAGE_SCN_ALIGN_16BYTES, 16), (IMAGE_SCN_ALIGN_32BYTES, 32),
   (IMAGE_SCN_ALIGN_64BYTES, 64), (IMAGE_SCN_ALIGN_128BYTES, 128),
   (IMAGE_SCN_ALIGN_256BYTES, 256), (IMAGE_SCN_ALIGN_512BYTES, 512),
   (IMAGE_SCN_ALIGN_1024BYTES, 1024), (IMAGE_SCN_ALIGN_2048BYTES, 2048),
   (IMAGE_SCN_ALIGN_4096BYTES, 4096), (IMAGE_SCN_ALIGN_8192BYTES, 8192)]

/-- Claim C9: `IMAGE_SCN_CNT_CODE | IMAGE_SCN_MEM_EXECUTE |
IMAGE_SCN_MEM_READ` masked with `IMAGE_SCN_ALIGN_MASK` is 0 (no
alignment bits set); every alignment constant lies inside the dedicated
mask (the mask isolates it unchanged), the fourteen constants are
pairwise distinct fixed values, and their encoded byte alignments are
exactly the powers of two from 1 through 8192. -/
theorem characteristics_constants :
    (IMAGE_SCN_CNT_CODE ||| IMAGE_SCN_MEM_EXECUTE ||| IMAGE_SCN_MEM_READ) &&&
      IMAGE_SCN_ALIGN_MASK = 0 ∧
    alignTable.map (fun p => p.1 &&& IMAGE_SCN_ALIGN_MASK) = alignTable.map Prod.fst ∧
    alignTable.map Prod.snd = (List.range 14).map (fun k => 2 ^ k) ∧
    (alignTable.map Prod.fst).Nodup := by decide

/-- Claim C2: on any index text over the base64-like alphabet (an
indirect name's index text has at most 6 characters, the name field
being 8 bytes), the decoder maps `A`-`Z` to 0-25, `a`-`z` to 26-51,
`0`-`9` to 52-61, `+` to 62, `/` to 63, accumulating left to right as
`value = value * 64 + digit` (most significant character first); in
particular `AAAAAB` decodes to 1 and `BAAAAA` to 1073741824. -/
theorem base64_alphabet_accumulation (s : List Nat) (h6 : s.length ≤ 6)
    (ha : ∀ c ∈ s, inB64Alphabet c) :
    base64_decode_string_entry s = .ok (b64SpecValue s) ∧
    base64_decode_string_entry (ascii ("AAAAAB")) = .ok 1 ∧
    base64_decode_string_entry (ascii ("BAAAAA")) = .ok 1073741824 :=
  ⟨base64_ok_of_alphabet h6 ha, by decide, by decide⟩

theorem base64_alphabet_accumulation_witness :
    ((ascii ("AAAAAB")).length ≤ 6 ∧ (∀ c ∈ ascii ("AAAAAB"), inB64Alphabet c)) ∧
    (base64_decode_string_entry (ascii ("AAAAAB")) = .ok (b64SpecValue (ascii ("AAAAAB"))) ∧
     base64_decode_string_entry (ascii ("AAAAAB")) = .ok 1 ∧
     base64_decode_string_entry (ascii ("BAAAAA")) = .ok 1073741824) :=
  ⟨⟨by decide, by decide⟩,
   base64_alphabet_accumulation (ascii ("AAAAAB")) (by decide) (by decide)⟩

/-- Claim C3 (a bug in the source): an index text longer than 6
characters does not produce a recoverable Malformed error value - the
unconditional `assert!` at the head of `base64_decode_string_entry`
fires and the process aborts.  Evaluated at the 7-character text
`AAAAAAA`: the outcome is the abort with the assertion's message, not
`Err` (which the caller would map to Malformed). -/
theorem base64_len7_aborts :
    base64_decode_string_entry (ascii ("AAAAAAA")) =
      .abort (ascii ("String too long, possible overflow.")) := by decide

/-- Buffer for the indirect-name fixture: a record whose raw name is
`/4` followed by NULs (decimal string-table index 4), 32 zero bytes for
the fixed fields, and the string table at offset 40 holding
`abc\0section_name\0`, so string-table-relative offset 4 holds
`section_name`. -/
def fixtureIndirect : List Nat :=
  [47, 52, 0, 0, 0, 0, 0, 0] ++ List.replicate 32 0 ++
  [97, 98, 99, 0] ++ ascii ("section_name") ++ [0]

/-- Decoded form of `fixtureIndirect` (string table base 40). -/
def fixtureIndirectTable : SectionTable :=
  { name := [47, 52, 0, 0, 0, 0, 0, 0]
    real_name := some (ascii ("section_name"))
    virtual_size := 0
    virtual_address := 0
    size_of_raw_data := 0
    pointer_to_raw_data := 0
    pointer_to_relocations := 0
    pointer_to_linenumbers := 0
    number_of_relocations := 0
    number_of_linenumbers := 0
    characteristics := 0 }

theorem resolveName_err_inv {bytes name : List Nat} {sto : Nat} {e : PError} {i : Nat}
    (h0 : name.getD 0 0 = 47) (hi : indirectIndex name = .ok i)
    (h : resolveName bytes name sto = .error e) :
    pread_str bytes (sto + i) = .error e := by
  cases hs : pread_str bytes (sto + i) with
  | error e' =>
    rw [resolveName_str_err h0 hi hs] at h
    injection h with h1
    rw [h1]
  | ok s =>
    rw [resolveName_slash_ok h0 hi hs] at h
    exact absurd h (by simp)

/-- Claim C5: for every successful decode whose raw name starts with
`/` and whose indirect index decodes to `i`, the resolved name is the
NUL-terminated string read from the buffer at absolute offset
`string_table_base + i`; concretely, with string table bytes
`..\0section_name\0..` at string-table offset 4 and raw name
`/4\0\0\0\0\0\0`, decode resolves `section_name`. -/
theorem resolved_name_from_string_table (bytes : List Nat) (off sto : Nat)
    (t : SectionTable) (off' i : Nat)
    (h : parse bytes off sto = .ok (t, off'))
    (h0 : (rawName bytes off).getD 0 0 = 47)
    (hi : indirectIndex (rawName bytes off) = .ok i) :
    (∃ s, pread_str bytes (sto + i) = .ok s ∧ t.real_name = some s) ∧
    parse fixtureIndirect 0 40 = .ok (fixtureIndirectTable, 40) ∧
    fixtureIndirectTable.real_name = some (ascii ("section_name")) := by
  obtain ⟨hlen, _, hname, hres, _⟩ := parse_ok_inv h
  obtain ⟨hslash, _⟩ := resolveName_ok_inv hres
  obtain ⟨i', s, hi', hs, hrn⟩ := hslash h0
  have hii : i' = i := by
    rw [hi] at hi'
    injection hi' with h1
    exact h1.symm
  subst hii
  exact ⟨⟨s, hs, hrn⟩, by decide, by decide⟩

theorem resolved_name_from_string_table_witness :
    (parse fixtureIndirect 0 40 = .ok (fixtureIndirectTable, 40) ∧
     (rawName fixtureIndirect 0).getD 0 0 = 47 ∧
     indirectIndex (rawName fixtureIndirect 0) = .ok 4) ∧
    ((∃ s, pread_str fixtureIndirect (40 + 4) = .ok s ∧
       fixtureIndirectTable.real_name = some s) ∧
     parse fixtureIndirect 0 40 = .ok (fixtureIndirectTable, 40) ∧
     fixtureIndirectTable.real_name = some (ascii ("section_name"))) :=
  ⟨⟨by decide, by decide, by decide⟩,
   resolved_name_from_string_table fixtureIndirect 0 40 fixtureIndirectTable 40 4
     (by decide) (by decide) (by decide)⟩

/-- Claim C10: when the raw name field is `//` followed by six NULs,
the base64-like index text is empty and the decoder accepts it with
index 0, so the resolved name is read at exactly the string-table base
offset (`sto + 0 = sto`), and decoding never produces a Malformed
error for such a record (it can still fail out of bounds or on
encoding, but not as Malformed). -/
theorem empty_b64_index_resolves_at_base (bytes : List Nat) (off sto : Nat)
    (hname : rawName bytes off = [47, 47, 0, 0, 0, 0, 0, 0]) :
    indirectIndex (rawName bytes off) = .ok 0 ∧
    (∀ s, pread_str bytes sto = .ok s → off + 40 ≤ bytes.length →
      ∃ t, parse bytes off sto = .ok (t, off + 40) ∧ t.real_name = some s) ∧
    (∀ m, parse bytes off sto ≠ .error (.malformed m)) := by
  have h0 : (rawName bytes off).getD 0 0 = 47 := by
    rw [hname]
    rfl
  have hidx : indirectIndex (rawName bytes off) = .ok 0 := by
    rw [hname]
    decide
  refine ⟨hidx, ?_, ?_⟩
  · intro s hs hlen
    have hres : resolveName bytes (rawName bytes off) sto = .ok (some s) :=
      resolveName_slash_ok h0 hidx hs
    rw [parse_eq bytes off sto hlen, hres]
    simp only [ebind_ok]
    exact ⟨_, rfl, rfl⟩
  · intro m hm
    by_cases hlen : off + 40 ≤ bytes.length
    · rw [parse_eq bytes off sto hlen] at hm
      cases hr : resolveName bytes (rawName bytes off) sto with
      | error e =>
        rw [hr] at hm
        simp only [ebind_err] at hm
        injection hm with h1
        subst h1
        have hps := resolveName_err_inv h0 hidx hr
        rcases pread_str_err_kinds hps with he | he
        · exact absurd he (by simp)
        · exact absurd he (by simp)
      | ok rn =>
        rw [hr] at hm
        simp only [ebind_ok] at hm
        exact absurd hm (by simp)
    · rw [parse_oob bytes off sto (by omega)] at hm
      injection hm with h1
      exact absurd h1 (by simp)

/-- Buffer for the empty-base64-index fixture: raw name `//` plus six
NULs, zero fixed fields, string table `xyz\0` at offset 40. -/
def fixtureEmptyB64 : List Nat :=
  [47, 47, 0, 0, 0, 0, 0, 0] ++ List.replicate 32 0 ++ ascii ("xyz") ++ [0]

theorem empty_b64_index_resolves_at_base_witness :
    rawName fixtureEmptyB64 0 = [47, 47, 0, 0, 0, 0, 0, 0] ∧
    (indirectIndex (rawName fixtureEmptyB64 0) = .ok 0 ∧
     (∀ s, pread_str fixtureEmptyB64 40 = .ok s → 0 + 40 ≤ fixtureEmptyB64.length →
       ∃ t, parse fixtureEmptyB64 0 40 = .ok (t, 0 + 40) ∧ t.real_name = some s) ∧
     (∀ m, parse fixtureEmptyB64 0 40 ≠ .error (.malformed m))) :=
  ⟨by decide, empty_b64_index_resolves_at_base fixtureEmptyB64 0 40 (by decide)⟩

/-- Record whose raw name is `/+4` plus NULs: the decimal index portion
is `+4`, which contains the non-digit `+` yet parses as 4 (Rust's
integer parser accepts a single leading plus sign).  String table at
offset 40 holds `abcd` then `plus\0`; index 4 resolves to `plus`. -/
def fixturePlus : List Nat :=
  [47, 43, 52, 0, 0, 0, 0, 0] ++ List.replicate 32 0 ++
  [97, 98, 99, 100] ++ ascii ("plus") ++ [0]

/-- Decoded form of `fixturePlus` (string table base 40). -/
def fixturePlusTable : SectionTable :=
  { name := [47, 43, 52, 0, 0, 0, 0, 0]
    real_name := some (ascii ("plus"))
    virtual_size := 0
    virtual_address := 0
    size_of_raw_data := 0
    pointer_to_raw_data := 0
    pointer_to_relocations := 0
    pointer_to_linenumbers := 0
    number_of_relocations := 0
    number_of_linenumbers := 0
    characteristics := 0 }

/-- Claim C4 as stated is false on the code: in the record
`fixturePlus` the raw name starts with `/`, its decimal index portion
(bytes 1..8 trimmed at the first NUL) is `+4`, whose first character
`+` (byte 43) is a non-digit - yet decoding succeeds with the name
resolved through index 4, instead of failing with a Malformed error. -/
theorem plus_sign_decimal_accepted :
    (rawName fixturePlus 0).getD 0 0 = 47 ∧
    (rawName fixturePlus 0).getD 1 0 ≠ 47 ∧
    pread_str (rawName fixturePlus 0) 1 = .ok [43, 52] ∧
    43 ∈ [43, 52] ∧ digitVal 43 = none ∧
    parse fixturePlus 0 40 = .ok (fixturePlusTable, 40) := by decide

/-- Claim C4 (amended): for a record whose raw name starts with `/`
and whose fixed 40 bytes are in bounds:
(a) if the base64-like index portion (name bytes from 2, trimmed at the
first NUL, read as text) contains any character outside the 64-symbol
alphabet, decoding fails with a Malformed error whose message contains
the offending index text;
(b) if the decimal index portion (name bytes from 1, trimmed at the
first NUL, read as text) fails the unsigned-integer parse - it is
empty, overflows, or contains a non-digit, except that a single
leading `+` is accepted as a sign by the integer parser - decoding
fails with a Malformed error whose message contains the offending
index text.  Neither case aborts or reads out of bounds. -/
theorem indirect_malformed_errors (bytes : List Nat) (off sto : Nat)
    (hlen : off + 40 ≤ bytes.length) :
    (∀ t c, (rawName bytes off).getD 0 0 = 47 → (rawName bytes off).getD 1 0 = 47 →
      pread_str (rawName bytes off) 2 = .ok t → c ∈ t → ¬ inB64Alphabet c →
      ∃ m, parse bytes off sto = .error (.malformed m) ∧
        ∃ pre post, m = pre ++ t ++ post) ∧
    (∀ t k, (rawName bytes off).getD 0 0 = 47 → ¬ (rawName bytes off).getD 1 0 = 47 →
      pread_str (rawName bytes off) 1 = .ok t → parse_usize t = .error k →
      ∃ m, parse bytes off sto = .error (.malformed m) ∧
        ∃ pre post, m = pre ++ t ++ post) := by
  have hn8 : (rawName bytes off).length = 8 := rawName_length (by omega)
  constructor
  · intro t c h0 h2 hp hc hbad
    have h6 : t.length ≤ 6 := by
      have := pread_str_len_bound hp
      omega
    have hb : base64_decode_string_entry t = .err :=
      base64_err_of_bad h6 hc (b64digit_none_of_not_alphabet hbad)
    have hidx := indirectIndex_b64_malformed h2 hp hb
    have hres := @resolveName_idx_err bytes (rawName bytes off) sto _ h0 hidx
    rw [parse_eq bytes off sto hlen, hres]
    simp only [ebind_err]
    exact ⟨_, rfl, ascii ("Invalid indirect section name //"),
      ascii (": base64 decoding failed"), rfl⟩
  · intro t k h0 h2 hp hu
    have hidx := indirectIndex_dec_malformed h2 hp hu
    have hres := @resolveName_idx_err bytes (rawName bytes off) sto _ h0 hidx
    rw [parse_eq bytes off sto hlen, hres]
    simp only [ebind_err]
    exact ⟨_, rfl, ascii ("Invalid indirect section name /"),
      ascii (": ") ++ intErrMsg k, List.append_assoc _ _ _⟩

/-- Record whose raw name is `//!` plus NULs: the base64-like index
portion `!` (byte 33) is outside the alphabet. -/
def fixtureBadB64 : List Nat :=
  [47, 47, 33, 0, 0, 0, 0, 0] ++ List.replicate 32 0

theorem indirect_malformed_errors_witness :
    0 + 40 ≤ fixtureBadB64.length ∧
    ((∀ t c, (rawName fixtureBadB64 0).getD 0 0 = 47 →
       (rawName fixtureBadB64 0).getD 1 0 = 47 →
       pread_str (rawName fixtureBadB64 0) 2 = .ok t → c ∈ t → ¬ inB64Alphabet c →
       ∃ m, parse fixtureBadB64 0 0 = .error (.malformed m) ∧
         ∃ pre post, m = pre ++ t ++ post) ∧
     (∀ t k, (rawName fixtureBadB64 0).getD 0 0 = 47 →
       ¬ (rawName fixtureBadB64 0).getD 1 0 = 47 →
       pread_str (rawName fixtureBadB64 0) 1 = .ok t → parse_usize t = .error k →
       ∃ m, parse fixtureBadB64 0 0 = .error (.malformed m) ∧
         ∃ pre post, m = pre ++ t ++ post)) :=
  ⟨by decide, indirect_malformed_errors fixtureBadB64 0 0 (by decide)⟩

/-- Claim C8: bounds safety of decoding.
(a) If the 40 bytes of the fixed record are not available at the
cursor, decoding fails with OutOfBounds.
(b) If the string-table read for an indirect name (at
`string_table_base + index`) starts past the end of the buffer,
decoding fails with OutOfBounds.
(c) Decoding never aborts the process: every failure is a returned
error value (in the functional model every access is bounds-checked,
so no read of adjacent memory can be expressed at all). -/
theorem parse_bounds_safety (bytes : List Nat) (off sto : Nat) :
    (bytes.length < off + 40 → parse bytes off sto = .error .outOfBounds) ∧
    (∀ i, off + 40 ≤ bytes.length → (rawName bytes off).getD 0 0 = 47 →
      indirectIndex (rawName bytes off) = .ok i → bytes.length ≤ sto + i →
      parse bytes off sto = .error .outOfBounds) ∧
    (∀ m, parse bytes off sto ≠ .error (.abort m)) := by
  refine ⟨fun h => parse_oob bytes off sto h, ?_, ?_⟩
  · intro i hlen h0 hi hoob
    have hres := resolveName_str_err h0 hi (pread_str_oob bytes (sto + i) hoob)
    rw [parse_eq bytes off sto hlen, hres]
    simp only [ebind_err]
  · intro m hm
    rcases parse_err_kinds hm with he | he | ⟨m', he⟩
    · exact absurd he (by simp)
    · exact absurd he (by simp)
    · exact absurd he (by simp)

theorem parse_bounds_safety_witness :
    parse ([] : List Nat) 0 0 = .error .outOfBounds ∧
    parse fixtureIndirect 0 100 = .error .outOfBounds :=
  ⟨(parse_bounds_safety [] 0 0).1 (by decide),
   (parse_bounds_safety fixtureIndirect 0 100).2.1 4 (by decide) (by decide)
     (by decide) (by decide)⟩
